import Mathlib

/-!
Verification of the filename-reconciliation core of the bidscoin plugin scripts
(src/bidscoin/plugins/philips2bids.py and src/bidscoin/plugins/custom_pancreas.py).

Strings are embedded as `List Char` (`Str`), with all helpers written by
fuel-bounded structural recursion so that concrete runs reduce in the kernel.
Python semantics embedded here:
  - `str.replace(a, b)` replaces all non-overlapping occurrences left to right;
  - `str.split(sep)[0]` / `str.rsplit(sep, 1)[0]` keep the part before the
    first / last occurrence (the whole string when the separator is absent);
  - `pathlib.Path.suffixes` joined is the substring from the first dot of the
    final path component;
  - `Path.glob` with patterns that only use the `*` wildcard;
  - `int(s)` fails (ValueError) unless the string is a plain decimal numeral,
    modelled as `Option`;
  - `Path.replace` renames, silently overwriting an existing target, and fails
    only when the source file is gone, modelled as `Option` on a folder state.
A folder is a list of (file name, content tag) pairs; the content tag tracks
which original data a file holds across renames.
-/

abbrev Str := List Char

abbrev Folder := List (Str × Nat)

/-- Python `str.replace`, fuel-bounded: one unit of fuel per consumed character. -/
def replaceFuel (pat rep : Str) : Nat → Str → Str
  | _, [] => []
  | 0, s => s
  | fuel+1, c :: s =>
    if pat.isPrefixOf (c :: s) && !pat.isEmpty then
      rep ++ replaceFuel pat rep fuel (List.drop (pat.length - 1) s)
    else
      c :: replaceFuel pat rep fuel s

/-- Python `s.replace(pat, rep)`: replace all occurrences, left to right. -/
def replaceL (pat rep s : Str) : Str := replaceFuel pat rep s.length s

/-- Part of `s` before the first occurrence of `pat` (`s.split(pat)[0]`);
all of `s` when `pat` does not occur. -/
def beforeFirst (pat : Str) : Str → Str
  | [] => []
  | c :: s => if pat.isPrefixOf (c :: s) then [] else c :: beforeFirst pat s

/-- Part of `s` after the first occurrence of `pat` (`s.split(pat)[1]` when the
separator occurs once); `none` when `pat` does not occur. -/
def afterFirst (pat : Str) : Str → Option Str
  | [] => if pat.isEmpty then some [] else none
  | c :: s =>
    if pat.isPrefixOf (c :: s) then some (List.drop (pat.length - 1) s)
    else afterFirst pat s

/-- Does `pat` occur as a substring of `s`? -/
def containsSub (pat s : Str) : Bool := (afterFirst pat s).isSome

/-- Part of `s` before the last occurrence of `pat` (`s.rsplit(pat, 1)[0]`);
all of `s` when `pat` does not occur. -/
def beforeLast (pat : Str) : Str → Str
  | [] => []
  | c :: s =>
    if containsSub pat s then c :: beforeLast pat s
    else if pat.isPrefixOf (c :: s) then []
    else c :: beforeLast pat s

/-- `''.join(pathlib.Path(fname).suffixes)`: the substring from the first dot. -/
def extOf (fname : Str) : Str := fname.dropWhile (fun c => c ≠ '.')

/-- The stem of a file name: everything before the first dot. -/
def stemOf (fname : Str) : Str := fname.takeWhile (fun c => c ≠ '.')

/-- Python `s.split('_')` (keeps empty fragments). -/
def splitUnd : Str → List Str
  | [] => [[]]
  | c :: s =>
    let r := splitUnd s
    if c = '_' then [] :: r
    else
      match r with
      | [] => [[c]]
      | g :: gs => (c :: g) :: gs

/-- Inverse of `splitUnd`: join fragments with underscores. -/
def joinUnd : List Str → Str
  | [] => []
  | [g] => g
  | g :: gs => g ++ '_' :: joinUnd gs

/-- Python `s.isalpha()` (ASCII letters suffice for converter tokens). -/
def pyIsAlpha (s : Str) : Bool := !s.isEmpty && s.all (fun c => c.isAlpha)

/-- Python `int(s)` for the nonnegative numerals that reach it here:
`some` value on a plain decimal numeral, `none` (ValueError) otherwise. -/
def pyInt (s : Str) : Option Nat :=
  if !s.isEmpty && s.all (fun c => c.isDigit) then
    some (s.foldl (fun a c => a * 10 + (c.toNat - 48)) 0)
  else none

/-- Decimal digits of a natural number, fuel-bounded. -/
def natToCharsAux : Nat → Nat → Str → Str
  | 0, _, acc => acc
  | fuel+1, n, acc =>
    if n < 10 then Char.ofNat (48 + n % 10) :: acc
    else natToCharsAux fuel (n / 10) (Char.ofNat (48 + n % 10) :: acc)

/-- Python `str(n)` for a natural number. -/
def natToChars (n : Nat) : Str := natToCharsAux (n + 1) n []

/-- Glob matching (patterns use only the `*` wildcard), fuel-bounded. -/
def globFuel : Nat → Str → Str → Bool
  | _, [], s => s.isEmpty
  | 0, _ :: _, _ => false
  | fuel+1, p :: ps, s =>
    if p = '*' then
      globFuel fuel ps s ||
        (match s with
         | [] => false
         | _ :: s' => globFuel fuel (p :: ps) s')
    else
      match s with
      | [] => false
      | c :: s' => (p == c) && globFuel fuel ps s'

/-- `fnmatch`-style glob match of file name `s` against pattern `pat`. -/
def globMatchL (pat s : Str) : Bool := globFuel (pat.length + s.length + 1) pat s

/-- Strict lexicographic order on strings by code point (Python string `<`). -/
def lexLt : Str → Str → Bool
  | [], [] => false
  | [], _ :: _ => true
  | _ :: _, [] => false
  | a :: s, b :: t =>
    if a.toNat < b.toNat then true
    else if b.toNat < a.toNat then false
    else lexLt s t

/-- Insertion into a lexicographically sorted list of names. -/
def insertSorted (x : Str) : List Str → List Str
  | [] => [x]
  | y :: ys => if lexLt x y then x :: y :: ys else y :: insertSorted x ys

/-- Python `sorted` over file names. -/
def sortNames (l : List Str) : List Str := l.foldr insertSorted []

/-- The names present in a folder. -/
def names (folder : Folder) : List Str := folder.map (fun e => e.1)

/-- `Path.replace`: rename `old` to `new`, silently overwriting an existing
`new`; fails (`none`, FileNotFoundError) when `old` is not present. -/
def renameFile (folder : Folder) (old new : Str) : Option Folder :=
  match folder.find? (fun e => e.1 == old) with
  | none => none
  | some e =>
    some ((folder.filter (fun e' => !(e'.1 == old) && !(e'.1 == new))) ++ [(new, e.2)])

/-!
## Filename reconciliation engine

Embedded from `bidscoiner_plugin` in src/bidscoin/plugins/philips2bids.py,
lines 269-354 (the identical crop/rename skeleton also appears in
src/bidscoin/plugins/custom_pancreas.py, lines 1436-1459).  Names passed
around are bare file names; the plugin operates on full paths, which agrees
with this embedding whenever the directory part does not itself contain the
bids base name.  The run-index placeholder branch (line 348) is not taken in
any scenario below (static run index), matching the scenarios of the claims.
-/

/-- The run configuration consulted by the token classification, from
`run['bids']` of the matched bidsmap run: whether an echo entity is legal
(`'echo' in run['bids']`), whether a part entity is legal, and the target
suffix. -/
structure RunBids where
  hasEcho : Bool
  hasPart : Bool
  suffix : Str

/-- The dcm2niix postfix markers of philips2bids.py line 278. -/
def dcm2niixTokPats : List Str :=
  [("_c".data), ("_i".data), ("_Eq".data), ("_real".data), ("_imaginary".data),
   ("_MoCo".data), ("_t".data), ("_Tilt".data), ("_e".data), ("_ph".data)]

/-- The fieldmap suffix table of the source (custom_pancreas.py lines 244-254;
philips2bids.py line 309 reads the same list from `bids.bidsdatatypes`). -/
def fmapSuffixes : List Str :=
  [("phasediff".data), ("phase1".data), ("phase2".data), ("magnitude1".data),
   ("magnitude2".data), ("magnitude".data), ("fieldmap".data)]

/-- Selection glob of philips2bids.py line 279: the file matches
`f"{bidsname}*{marker}*.nii*"` for some dcm2niix marker. -/
def selectedForRenaming (bidsname fname : Str) : Bool :=
  dcm2niixTokPats.any
    (fun p => globMatchL (bidsname ++ (('*' :: p) ++ ("*.nii*".data))) fname)

/-- philips2bids.py line 279: the sorted set of converter output files that
carry dcm2niix postfix markers (folder names are pairwise distinct, so the
`set(...)` of the source is the identity here). -/
def dcm2niixFiles (bidsname : Str) (folder : Folder) : List Str :=
  sortNames ((names folder).filter (fun f => selectedForRenaming bidsname f))

/-- philips2bids.py line 284: `str(f).split(bidsname)[1].rsplit(ext)[0].split('_')[1:]`. -/
def computeToks (bidsname fname : Str) : List Str :=
  let rest := (afterFirst bidsname fname).getD []
  (splitUnd (beforeFirst (extOf fname) rest)).drop 1

/-- Base name and extension of a file name, split at the first dot. -/
def splitBaseExt (fname : Str) : Str × Str := (stemOf fname, extOf fname)

/-- Does the segment carry the given entity key (starts with `key-`)? -/
def segHasKey (key seg : Str) : Bool := (key ++ ('-' :: [])).isPrefixOf seg

/-- Insert a new `key-value` segment after the leading key-value segments and
before the terminal suffix (and any trailing converter tokens). -/
def insertSeg (kv : List Char) : List Str → List Str
  | [] => [kv]
  | g :: gs => if g.contains '-' then g :: insertSeg kv gs else kv :: g :: gs

/-- Set entity `key` to `value` in a segment list: overwrite an existing
`key-` segment, else insert a new one before the suffix. -/
def setEntitySegs (key value : Str) (segs : List Str) : List Str :=
  let kv := key ++ '-' :: value
  if segs.any (fun g => segHasKey key g) then
    segs.map (fun g => if segHasKey key g then kv else g)
  else insertSeg kv segs

/-- Modelled from the spec: `bids.insert_bidskeyval(bidsname, key, value)` of
the bidscoin library (not under src/) sets the ordered `key-value` entity of
the canonical name, keeping the terminal suffix last (spec section 3: a
canonical filename is the ordered concatenation of key-value segments plus a
terminal suffix token; section 4.1 rule 1: set the echo entity to the parsed
integer value). -/
def insert_bidskeyval (bidsname key value : Str) : Str :=
  joinUnd (setEntitySegs key value (splitUnd (stemOf bidsname))) ++ extOf bidsname

/-- Modelled from the spec: `bids.get_bidsvalue(bidsname, 'dummy', tok)` of the
bidscoin library (not under src/) appends an unclassified token as a fallback
distinguishing label entity (spec section 4.1 rule 4: append it to the
acquisition label, never drop information silently). -/
def appendDummyLabel (bidsname tok : Str) : Str :=
  let segs := splitUnd (stemOf bidsname)
  let acq := "acq".data
  let segs' :=
    if segs.any (fun g => segHasKey acq g) then
      segs.map (fun g => if segHasKey acq g then g ++ tok else g)
    else insertSeg (acq ++ '-' :: tok) segs
  joinUnd segs' ++ extOf bidsname

/-- Modelled from the spec: `bids.get_bidsvalue(bidsname, key)` of the bidscoin
library (not under src/) reads the value of the `key-value` entity of the name
(empty when absent). -/
def get_bidsvalue (bidsname key : Str) : Str :=
  match (splitUnd (stemOf bidsname)).filter (fun g => segHasKey key g) with
  | [] => []
  | g :: _ => g.drop (key.length + 1)

/-- philips2bids.py lines 289-297: the echo branch.  `none` models the
uncaught ValueError of `int(echonr)` on a numeral with trailing letters. -/
def echoBranch (name tok : Str) : Option Str :=
  let echonr := replaceL ("_e".data) [] ('_' :: tok)
  let echonr := if echonr.isEmpty then ("1".data) else echonr
  if pyIsAlpha echonr then some (appendDummyLabel name tok)
  else
    match pyInt echonr with
    | none => none
    | some n => some (insert_bidskeyval name ("echo".data) (natToChars n))

/-- philips2bids.py lines 300-306: the phase/real/imaginary part branch. -/
def partBranch (name tok : Str) : Str :=
  let n1 := if tok = ("ph".data) then insert_bidskeyval name ("part".data) ("phase".data) else name
  let n2 := if tok = ("real".data) then insert_bidskeyval n1 ("part".data) ("real".data) else n1
  if tok = ("imaginary".data) then insert_bidskeyval n2 ("part".data) ("imag".data) else n2

/-- philips2bids.py lines 310-337: the fieldmap disambiguation rewrite chain,
conditioned on the number of selected sibling files. -/
def fmapChain (nfiles : Nat) (name : Str) : Str :=
  let n := replaceL ("_magnitude1a".data) ("_magnitude2".data) name
  let n := replaceL ("_magnitude1_pha".data) ("_phase2".data) n
  let n := replaceL ("_magnitude1_e1".data) ("_magnitude1".data) n
  let n := replaceL ("_magnitude1_e2".data) ("_magnitude2".data) n
  let n := replaceL ("_magnitude2_e1".data) ("_magnitude1".data) n
  let n := replaceL ("_magnitude2_e2".data) ("_magnitude2".data) n
  let n :=
    if nfiles = 2 ∨ nfiles = 3 then
      let n := replaceL ("_magnitude1_ph".data) ("_phasediff".data) n
      replaceL ("_magnitude2_ph".data) ("_phasediff".data) n
    else n
  let n := replaceL ("_phasediff_e1".data) ("_phasediff".data) n
  let n := replaceL ("_phasediff_e2".data) ("_phasediff".data) n
  let n := replaceL ("_phasediff_ph".data) ("_phasediff".data) n
  let n := replaceL ("_magnitude1_ph".data) ("_phase1".data) n
  let n := replaceL ("_magnitude2_ph".data) ("_phase2".data) n
  let n := replaceL ("_phase1_e1".data) ("_phase1".data) n
  let n := replaceL ("_phase1_e2".data) ("_phase2".data) n
  let n := replaceL ("_phase2_e1".data) ("_phase1".data) n
  let n := replaceL ("_phase2_e2".data) ("_phase2".data) n
  let n := replaceL ("_phase1_ph".data) ("_phase1".data) n
  let n := replaceL ("_phase2_ph".data) ("_phase2".data) n
  let n := replaceL ("_magnitude_e1".data) ("_magnitude".data) n
  let n :=
    if nfiles = 2 then replaceL ("_fieldmap_e1".data) ("_magnitude".data) n
    else n
  let n := replaceL ("_fieldmap_e1".data) ("_fieldmap".data) n
  let n := replaceL ("_magnitude_ph".data) ("_fieldmap".data) n
  replaceL ("_fieldmap_ph".data) ("_fieldmap".data) n

/-- philips2bids.py lines 286-345: classify one converter token and strip it
from the name.  `none` models an uncaught exception in the branch. -/
def processTok (cfg : RunBids) (nfiles : Nat) (tok name : Str) : Option Str :=
  let step : Option Str :=
    if cfg.hasEcho && ("e".data).isPrefixOf tok then echoBranch name tok
    else if cfg.hasPart &&
        (tok = ("ph".data) ∨ tok = ("real".data) ∨ tok = ("imaginary".data) : Bool) then
      some (partBranch name tok)
    else if fmapSuffixes.contains cfg.suffix then some (fmapChain nfiles name)
    else some (appendDummyLabel name tok)
  step.map (fun n =>
    replaceL ('_' :: tok ++ ('.' :: [])) ('.' :: [])
      (replaceL ('_' :: tok ++ ('_' :: [])) ('_' :: []) n))

/-- philips2bids.py lines 282-345: resolve the target name of one sibling file
by classifying each of its postfix tokens in order. -/
def resolveName (cfg : RunBids) (nfiles : Nat) (bidsname fname : Str) : Option Str :=
  (computeToks bidsname fname).foldlM (fun name tok => processTok cfg nfiles tok name) fname

/-- philips2bids.py lines 347-354: rename each selected sibling file to its
resolved name, in order; `none` when a branch raised or a source file vanished. -/
def renamePass (resolve : Str → Option Str) : List Str → Folder → Option Folder
  | [], folder => some folder
  | f :: fs, folder =>
    match resolve f with
    | none => none
    | some nf =>
      match renameFile folder f nf with
      | none => none
      | some folder' => renamePass resolve fs folder'

/-- philips2bids.py line 352: the overwrite warning condition
(`newbidsfile.is_file()`). -/
def overwriteWarning (folder : Folder) (new : Str) : Bool :=
  (names folder).contains new

/-- philips2bids.py line 273: the replacement name of a `_Crop_` file:
`str(f).rsplit(ext, 1)[0].rsplit('_Crop_', 1)[0] + ext`. -/
def cropNewName (fname : Str) : Str :=
  beforeLast ("_Crop_".data) (beforeLast (extOf fname) fname) ++ extOf fname

/-- philips2bids.py lines 270-275: replace each uncropped image by its cropped
variant (`sorted(outfolder.glob(bidsname + '*_Crop_*'))`, rename dropping the
crop marker, overwriting the uncropped file). -/
def cropPass (bidsname : Str) (folder : Folder) : Option Folder :=
  let cropfiles := sortNames
    ((names folder).filter (fun f => globMatchL (bidsname ++ ("*_Crop_*".data)) f))
  cropfiles.foldlM (fun fl f => renameFile fl f (cropNewName f)) folder

/-- philips2bids.py lines 269-354: the post-conversion pipeline of one acquisition:
the crop replacement (only when the converter args contain `-x y`), then the
postfix-token rename pass over the selected sibling files (static run index). -/
def processAcq (cfg : RunBids) (crop : Bool) (bidsname : Str) (folder : Folder) :
    Option Folder :=
  match (if crop then cropPass bidsname folder else some folder) with
  | none => none
  | some fl =>
    let files := dcm2niixFiles bidsname fl
    renamePass (resolveName cfg files.length bidsname) files fl

/-- philips2bids.py line 270: crop handling runs only when the converter
arguments contain `-x y`. -/
def cropEnabled (args : Str) : Bool := containsSub ("-x y".data) args

/-!
## Run/echo index allocator (custom_pancreas.py lines 1397-1409)

The echo-index allocator loop of `bidscoiner_plugin` in custom_pancreas.py:

    bidsname  = get_bidsname_custom(subid, sesid, run, runtime=True)
    echoindex = run['bids'].get('echo', '')
    if echoindex.startswith('<<') and echoindex.endswith('>>'):
        while list(outfolder.glob(bidsname + '.*')):
            currentechoindex = bids.get_bidsvalue(bidsname, 'echo')
            if runindex:
                bidsname = get_bidsvalue(bidsname, 'echo', str(int(currentechoindex) + 1))

    runindex  = run['bids'].get('run', '')           # first assignment of runindex

`runindex` is a local of the function whose first assignment is BELOW the
loop, so the loop body reads it before assignment (UnboundLocalError) on the
first source iteration; on later iterations it holds the value left by the previous source, and when that value is falsy the body leaves `bidsname` unchanged.
`runindex = none` models the not-yet-assigned local.
-/

/-- The while condition of custom_pancreas.py line 1401:
`list(outfolder.glob(bidsname + '.*'))` is nonempty. -/
def echoLoopCond (folderNames : List Str) (bidsname : Str) : Bool :=
  folderNames.any (fun f => globMatchL (bidsname ++ (".*".data)) f)

/-- Outcome of one execution of the allocator loop body: an uncaught Python
exception, or the (possibly unchanged) bids name. -/
inductive LoopResult where
  | err : Str → LoopResult
  | ok : Str → LoopResult
deriving DecidableEq

/-- One execution of the loop body (custom_pancreas.py lines 1402-1404). -/
def echoLoopBody (runindex : Option Str) (bidsname : Str) : LoopResult :=
  match runindex with
  | none => LoopResult.err ("UnboundLocalError".data)
  | some ri =>
    if !ri.isEmpty then
      match pyInt (get_bidsvalue bidsname ("echo".data)) with
      | none => LoopResult.err ("ValueError".data)
      | some n => LoopResult.ok (insert_bidskeyval bidsname ("echo".data) (natToChars (n + 1)))
    else LoopResult.ok bidsname

/-- The allocator loop, run with `fuel` iterations: `none` when the fuel is
exhausted with the loop still running (so `∀ fuel, ... = none` states that the
loop never terminates). -/
def echoLoopRun : Nat → Option Str → List Str → Str → Option LoopResult
  | 0, _, _, _ => none
  | fuel+1, runindex, folderNames, bidsname =>
    if echoLoopCond folderNames bidsname then
      match echoLoopBody runindex bidsname with
      | LoopResult.err e => some (LoopResult.err e)
      | LoopResult.ok b' => echoLoopRun fuel runindex folderNames b'
    else some (LoopResult.ok bidsname)

/-!
## Acquisition time of the scans table

philips2bids.py lines 402-409 (identically custom_pancreas.py lines 1518-1525):

    try:
        acq_time = dateutil.parser.parse(jsondata['AcquisitionTime'])
        acq_time = '1925-01-01T' + acq_time.strftime('%H:%M:%S')
    except Exception:
        acq_time = 'n/a'
    scans_table.loc[..., 'acq_time'] = acq_time

The external `dateutil.parser.parse` result is modelled as an optional parsed
datetime (`none` = parse failure).
-/

structure ParsedDatetime where
  year : Nat
  month : Nat
  day : Nat
  hour : Nat
  minute : Nat
  second : Nat

/-- Two-digit zero padding of `strftime`. -/
def pad2 (n : Nat) : Str :=
  if n < 10 then '0' :: natToChars n else natToChars n

/-- `acq_time.strftime('%H:%M:%S')`. -/
def strftimeHMS (t : ParsedDatetime) : Str :=
  pad2 t.hour ++ ':' :: pad2 t.minute ++ ':' :: pad2 t.second

/-- The `acq_time` value written into the scans.tsv table. -/
def mkAcqTime : Option ParsedDatetime → Str
  | some t => ("1925-01-01T".data) ++ strftimeHMS t
  | none => ("n/a".data)

/-- A converter sibling file for the given base name: the base, the rendered
postfix tokens, and the extension (spec section 3, converter output file). -/
def renderSibling (bidsname : Str) (toks : List Str) (ext : Str) : Str :=
  bidsname ++ (toks.foldl (fun a t => a ++ '_' :: t) []) ++ ext

theorem globFuel_congr : ∀ f g pat s, pat.length + s.length < f → pat.length + s.length < g →
    globFuel f pat s = globFuel g pat s := by
  intro f
  induction f with
  | zero => intro g pat s h _; omega
  | succ f ih =>
    intro g pat s hf hg
    cases g with
    | zero => omega
    | succ g =>
      cases pat with
      | nil => simp [globFuel]
      | cons p ps =>
        cases s with
        | nil =>
          by_cases hp : p = '*'
          · simp only [globFuel, hp, if_true]
            rw [ih g ps [] (by simp at hf ⊢; omega) (by simp at hg ⊢; omega)]
          · simp [globFuel, hp]
        | cons c s' =>
          by_cases hp : p = '*'
          · subst hp
            simp only [globFuel, if_true]
            rw [ih g ps (c :: s') (by simp at hf ⊢; omega) (by simp at hg ⊢; omega),
              ih g ('*' :: ps) s' (by simp at hf ⊢; omega) (by simp at hg ⊢; omega)]
          · simp only [globFuel, hp, if_false]
            rw [ih g ps s' (by simp at hf ⊢; omega) (by simp at hg ⊢; omega)]

theorem globFuel_lit (b : Str) (hb : '*' ∉ b) :
    ∀ f ps s, globFuel (f + b.length) (b ++ ps) (b ++ s) = globFuel f ps s := by
  induction b with
  | nil => intro f ps s; simp
  | cons c b ih =>
    intro f ps s
    have hc : ¬ c = '*' := by intro h; exact hb (by simp [h])
    have hb' : '*' ∉ b := fun h => hb (List.mem_cons_of_mem c h)
    show globFuel ((f + b.length) + 1) (c :: (b ++ ps)) (c :: (b ++ s)) = globFuel f ps s
    simp only [globFuel, hc, if_false, beq_self_eq_true, Bool.true_and]
    exact ih hb' f ps s

theorem globMatch_lit (b : Str) (hb : '*' ∉ b) (ps s : Str) :
    globMatchL (b ++ ps) (b ++ s) = globMatchL ps s := by
  unfold globMatchL
  rw [List.length_append, List.length_append]
  have h1 : b.length + ps.length + (b.length + s.length) + 1 =
      (ps.length + s.length + 1 + b.length) + b.length := by omega
  rw [h1, globFuel_lit b hb]
  exact globFuel_congr _ _ _ _ (by omega) (by omega)

theorem selected_canonical_false (b : Str) (hb : '*' ∉ b) :
    selectedForRenaming b (b ++ (".nii.gz".data)) = false := by
  simp only [selectedForRenaming, dcm2niixTokPats, List.any_cons, List.any_nil,
    globMatch_lit b hb]
  decide

theorem names_filter2 (folder : Folder) (a b : Str) :
    names (folder.filter (fun e => !(e.1 == a) && !(e.1 == b))) =
      (names folder).filter (fun x => !(x == a) && !(x == b)) := by
  induction folder with
  | nil => rfl
  | cons e fs ih =>
    simp only [names, List.map_cons, List.filter_cons] at *
    cases hp : (!(e.1 == a) && !(e.1 == b)) <;> simp [hp, ih]

theorem filter_ne_length {l : List Str} {a : Str} (hnd : l.Nodup) (ha : a ∈ l) :
    (l.filter (fun x => !(x == a))).length + 1 = l.length := by
  induction l with
  | nil => cases ha
  | cons x xs ih =>
    rcases List.mem_cons.mp ha with h | h
    · subst h
      have hxs : xs.filter (fun y => !(y == a)) = xs := by
        apply List.filter_eq_self.mpr
        intro y hy
        have hya : y ≠ a := fun hyx => (List.nodup_cons.mp hnd).1 (hyx ▸ hy)
        simp [hya]
      simp [List.filter_cons, hxs]
    · have hx : ¬ (x == a) = true := by
        intro hxa
        exact (List.nodup_cons.mp hnd).1 ((beq_iff_eq.mp hxa) ▸ h)
      have := ih (List.nodup_cons.mp hnd).2 h
      simp only [List.filter_cons]
      simp only [Bool.not_eq_true'] at hx
      rw [Bool.not_eq_true] at hx  
      simp [hx]
      omega

theorem names_length (folder : Folder) : (names folder).length = folder.length := by
  simp [names]

theorem renameFile_spec (folder : Folder) (old new : Str)
    (h1 : (names folder).Nodup) (hmem : old ∈ names folder)
    (hnew : new = old ∨ new ∉ names folder) :
    ∃ folder', renameFile folder old new = some folder' ∧
      folder'.length = folder.length ∧
      (names folder').Nodup ∧
      (∀ x, x ∈ names folder' ↔ (x ∈ names folder ∧ x ≠ old) ∨ x = new) := by
  obtain ⟨e0, he0, hfst⟩ := List.mem_map.mp hmem
  have hs : (folder.find? fun e => e.1 == old).isSome := by
    apply List.find?_isSome.mpr
    exact ⟨e0, he0, by simp [hfst]⟩
  obtain ⟨e, hfe⟩ := Option.isSome_iff_exists.mp hs
  have hnames : names (folder.filter (fun e' => !(e'.1 == old) && !(e'.1 == new)) ++ [(new, e.2)]) =
      ((names folder).filter fun x => !(x == old) && !(x == new)) ++ [new] := by
    unfold names
    rw [List.map_append]
    have h2 := names_filter2 folder old new
    unfold names at h2
    rw [h2]
    rfl
  refine ⟨folder.filter (fun e' => !(e'.1 == old) && !(e'.1 == new)) ++ [(new, e.2)],
    ?_, ?_, ?_, ?_⟩
  · simp [renameFile, hfe]
  · rw [List.length_append]
    have hlen : (folder.filter fun e' => !(e'.1 == old) && !(e'.1 == new)).length =
        ((names folder).filter fun x => !(x == old) && !(x == new)).length := by
      conv_rhs => rw [← names_filter2 folder old new]
      exact (names_length _).symm
    have hone : ((names folder).filter fun x => !(x == old) && !(x == new)) =
        (names folder).filter fun x => !(x == old) := by
      rcases hnew with h | h
      · subst h
        apply List.filter_congr
        intro x _
        simp
      · apply List.filter_congr
        intro x hx
        have hxn : ¬ x = new := fun hxg => h (hxg ▸ hx)
        simp [hxn]
    have h4 := filter_ne_length h1 hmem
    have h6 := names_length folder
    rw [hlen, hone]
    simp only [List.length_singleton]
    omega
  · rw [hnames]
    apply List.Nodup.append
    · exact h1.filter _
    · simp
    · intro x hx hx2
      simp only [List.mem_singleton] at hx2
      subst hx2
      have h5 := (List.mem_filter.mp hx).2
      simp at h5
  · intro x
    rw [hnames]
    simp only [List.mem_append, List.mem_filter, List.mem_singleton]
    constructor
    · rintro (⟨hx, hc⟩ | rfl)
      · simp only [Bool.and_eq_true, Bool.not_eq_true', beq_eq_false_iff_ne] at hc
        exact Or.inl ⟨hx, hc.1⟩
      · exact Or.inr rfl
    · rintro (⟨hx, hxo⟩ | rfl)
      · by_cases hxn : x = new
        · exact Or.inr hxn
        · refine Or.inl ⟨hx, ?_⟩
          simp only [Bool.and_eq_true, Bool.not_eq_true', beq_eq_false_iff_ne]
          exact ⟨hxo, hxn⟩
      · exact Or.inr rfl

theorem renamePass_length (resolve : Str → Option Str) :
    ∀ (files : List Str) (folder : Folder),
    (names folder).Nodup →
    files.Nodup →
    (∀ f, f ∈ files → f ∈ names folder) →
    (∀ f, f ∈ files → (resolve f).isSome = true) →
    (∀ f, f ∈ files → ((resolve f).getD f = f ∨ (resolve f).getD f ∉ names folder)) →
    (∀ f, f ∈ files → ∀ g, g ∈ files → f ≠ g → (resolve f).getD f ≠ (resolve g).getD g) →
    ∃ folder', renamePass resolve files folder = some folder' ∧
      folder'.length = folder.length := by
  intro files
  induction files with
  | nil => intro folder _ _ _ _ _ _; exact ⟨folder, rfl, rfl⟩
  | cons f fs ih =>
    intro folder h1 h2 h3 h4 h5 h6
    obtain ⟨nf, hnf⟩ := Option.isSome_iff_exists.mp (h4 f (List.mem_cons_self f fs))
    have hgetD : (resolve f).getD f = nf := by rw [hnf]; rfl
    have hmem : f ∈ names folder := h3 f (List.mem_cons_self f fs)
    have hnew : nf = f ∨ nf ∉ names folder := by
      have h7 := h5 f (List.mem_cons_self f fs)
      rw [hgetD] at h7
      exact h7
    obtain ⟨folder', hf', hlen', hnd', hmem'⟩ := renameFile_spec folder f nf h1 hmem hnew
    have hpass : renamePass resolve (f :: fs) folder = renamePass resolve fs folder' := by
      simp [renamePass, hnf, hf']
    have h2' := (List.nodup_cons.mp h2).2
    have hfnotfs := (List.nodup_cons.mp h2).1
    have h3' : ∀ g, g ∈ fs → g ∈ names folder' := by
      intro g hg
      have hgf : g ≠ f := fun h => hfnotfs (h ▸ hg)
      have hgmem := h3 g (List.mem_cons_of_mem f hg)
      apply (hmem' g).mpr
      by_cases hgnf : g = nf
      · exact Or.inr hgnf
      · exact Or.inl ⟨hgmem, hgf⟩
    have h4' : ∀ g, g ∈ fs → (resolve g).isSome = true :=
      fun g hg => h4 g (List.mem_cons_of_mem f hg)
    have h5' : ∀ g, g ∈ fs →
        ((resolve g).getD g = g ∨ (resolve g).getD g ∉ names folder') := by
      intro g hg
      have hgf : g ≠ f := fun h => hfnotfs (h ▸ hg)
      rcases h5 g (List.mem_cons_of_mem f hg) with h | h
      · exact Or.inl h
      · right
        intro hmem2
        rcases (hmem' _).mp hmem2 with ⟨hin, _⟩ | heq
        · exact h hin
        · have h8 := h6 g (List.mem_cons_of_mem f hg) f (List.mem_cons_self f fs) hgf
          rw [hgetD] at h8
          exact h8 heq
    have h6' : ∀ a, a ∈ fs → ∀ b, b ∈ fs → a ≠ b →
        (resolve a).getD a ≠ (resolve b).getD b := by
      intro a ha b hb hab
      exact h6 a (List.mem_cons_of_mem f ha) b (List.mem_cons_of_mem f hb) hab
    obtain ⟨folder'', hp'', hlen''⟩ := ih folder' hnd' h2' h3' h4' h5' h6'
    refine ⟨folder'', ?_, ?_⟩
    · rw [hpass]; exact hp''
    · rw [hlen'', hlen']

/-- Claim C1: for a converter-output sibling file of a run whose suffix legally
carries an echo entity, classifying the token `e2` sets the echo entity of the
target name to the integer 2 (yielding `echo-2`), and classifying the bare
token `e` with no digit sets it to 1 (yielding `echo-1`).  Confirmed at a
representative sibling file (the entity insertion itself,
`bids.insert_bidskeyval`, is library code modelled from the spec). -/
theorem c1_echo_classification :
    resolveName ⟨true, false, ("bold".data)⟩ 1 ("sub-01_task-rest_bold".data)
        ("sub-01_task-rest_bold_e2.nii".data) =
      some ("sub-01_task-rest_echo-2_bold.nii".data) ∧
    resolveName ⟨true, false, ("bold".data)⟩ 1 ("sub-01_task-rest_bold".data)
        ("sub-01_task-rest_bold_e.nii".data) =
      some ("sub-01_task-rest_echo-1_bold.nii".data) := by
  decide

/-- Claim C2 counterexample: for suffix `fieldmap` with the two siblings
bearing postfix `ph` and no postfix, the `ph` sibling does NOT resolve to a
name ending in `_magnitude` as the claim states: the rewrite chain maps
`_fieldmap_ph` to `_fieldmap`, so it resolves to `sub-01_fieldmap.nii`
(whose stem ends in `_fieldmap`, not `_magnitude`), and renaming it
overwrites the no-postfix sibling of the same name: the final folder holds
the single file `sub-01_fieldmap.nii` with the phase data (content tag 1). -/
theorem c2_fieldmap_pair_counterexample :
    resolveName ⟨false, false, ("fieldmap".data)⟩ 1 ("sub-01_fieldmap".data)
        ("sub-01_fieldmap_ph.nii".data) = some ("sub-01_fieldmap.nii".data) ∧
    ("_magnitude".data).isSuffixOf (stemOf ("sub-01_fieldmap.nii".data)) = false ∧
    processAcq ⟨false, false, ("fieldmap".data)⟩ false ("sub-01_fieldmap".data)
        [(("sub-01_fieldmap.nii".data), 0), (("sub-01_fieldmap_ph.nii".data), 1)] =
      some [(("sub-01_fieldmap.nii".data), 1)] := by
  decide

/-- Claim C2 amended: for suffix `fieldmap` with siblings bearing postfix `ph`
and no postfix, only the `ph` sibling is selected for renaming; it resolves to
the name ending in suffix `_fieldmap` (not `_magnitude`), while the no-postfix
sibling keeps its name, which already ends in `_fieldmap`; the renamed `ph`
output therefore overwrites it, leaving one `_fieldmap` file with the phase
data. -/
theorem c2_fieldmap_pair_amended :
    dcm2niixFiles ("sub-01_fieldmap".data)
        [(("sub-01_fieldmap.nii".data), 0), (("sub-01_fieldmap_ph.nii".data), 1)] =
      [("sub-01_fieldmap_ph.nii".data)] ∧
    ("_fieldmap".data).isSuffixOf (stemOf ("sub-01_fieldmap.nii".data)) = true ∧
    processAcq ⟨false, false, ("fieldmap".data)⟩ false ("sub-01_fieldmap".data)
        [(("sub-01_fieldmap.nii".data), 0), (("sub-01_fieldmap_ph.nii".data), 1)] =
      some [(("sub-01_fieldmap.nii".data), 1)] := by
  decide

/-- Claim C3 counterexample: the claimed scenario of exactly three sibling
files with postfix token lists given as two empty lists and one `ph` list is
unrealizable: the two no-postfix siblings render to the same file name, so the
three claimed files are not pairwise distinct.  On the realizable folder with
one no-postfix sibling and one `ph` sibling, the `ph` sibling resolves to
`sub-01_phase1.nii` (the sibling count is 1, so the phasediff rules are
skipped and `_magnitude1_ph` rewrites to `_phase1`), not to a `_phasediff`
name. -/
theorem c3_fieldmap_triple_counterexample :
    ¬ ([renderSibling ("sub-01_magnitude1".data) [] (".nii".data),
        renderSibling ("sub-01_magnitude1".data) [] (".nii".data),
        renderSibling ("sub-01_magnitude1".data) [("ph".data)] (".nii".data)].Nodup) ∧
    resolveName ⟨false, false, ("magnitude1".data)⟩ 1 ("sub-01_magnitude1".data)
        ("sub-01_magnitude1_ph.nii".data) = some ("sub-01_phase1.nii".data) ∧
    processAcq ⟨false, false, ("magnitude1".data)⟩ false ("sub-01_magnitude1".data)
        [(("sub-01_magnitude1.nii".data), 0), (("sub-01_magnitude1_ph.nii".data), 1)] =
      some [(("sub-01_magnitude1.nii".data), 0), (("sub-01_phase1.nii".data), 1)] ∧
    ("_phasediff".data).isSuffixOf (stemOf ("sub-01_phase1.nii".data)) = false := by
  decide

/-- Claim C3 amended: the two-magnitude-plus-phasediff acquisition produces
three distinct siblings carrying echo postfix token lists `e1`, `e2`, and
`e2, ph`; all three are selected, and the pass resolves them to
`_magnitude1`, `_magnitude2`, and `_phasediff` respectively, preserving the
content association. -/
theorem c3_fieldmap_triple_amended :
    dcm2niixFiles ("sub-01_magnitude1".data)
        [(("sub-01_magnitude1_e1.nii".data), 0), (("sub-01_magnitude1_e2.nii".data), 1),
         (("sub-01_magnitude1_e2_ph.nii".data), 2)] =
      [("sub-01_magnitude1_e1.nii".data), ("sub-01_magnitude1_e2.nii".data),
       ("sub-01_magnitude1_e2_ph.nii".data)] ∧
    processAcq ⟨false, false, ("magnitude1".data)⟩ false ("sub-01_magnitude1".data)
        [(("sub-01_magnitude1_e1.nii".data), 0), (("sub-01_magnitude1_e2.nii".data), 1),
         (("sub-01_magnitude1_e2_ph.nii".data), 2)] =
      some [(("sub-01_magnitude1.nii".data), 0), (("sub-01_magnitude2.nii".data), 1),
            (("sub-01_phasediff.nii".data), 2)] := by
  decide

/-- Claim C4: the claim states the token classification never raises, but the
code raises an uncaught ValueError on the token `e2a` of a run with a legal
echo entity: the echo digits `2a` are not all-alphabetic (so the logging
guard is skipped), and `int(echonr)` fails; the acquisition processing
aborts (`none` models the exception).  The claim is right and the code wrong
(code bug): the adjacent guard shows graceful degradation was intended. -/
theorem c4_unrecognized_token_raises :
    pyIsAlpha ("2a".data) = false ∧
    pyInt ("2a".data) = none ∧
    echoBranch ("sub-01_task-rest_bold_e2a.nii".data) ("e2a".data) = none ∧
    processAcq ⟨true, false, ("bold".data)⟩ false ("sub-01_task-rest_bold".data)
        [(("sub-01_task-rest_bold_e2a.nii".data), 0)] = none := by
  decide

theorem echoLoopRun_step_stuck (folderNames : List Str) (bidsname : Str)
    (hc : echoLoopCond folderNames bidsname = true) (fuel : Nat) :
    echoLoopRun (fuel + 1) (some []) folderNames bidsname =
      echoLoopRun fuel (some []) folderNames bidsname := by
  simp [echoLoopRun, hc, echoLoopBody]

/-- Claim C5: the claim states the run/echo index allocator always terminates
and never raises, but the echo allocator loop of custom_pancreas.py is broken
(code bug): with the output folder already holding a file matching
`bidsname + '.*'`, the loop runs; on the first source iteration the local
`runindex` is read before its first assignment (UnboundLocalError), and when
`runindex` holds a falsy value from an earlier iteration the body leaves
`bidsname` unchanged, so the loop never terminates (no amount of fuel
finishes it). -/
theorem c5_echo_allocator_fails :
    echoLoopCond [("sub-01_acq-a_bold.nii".data)] ("sub-01_acq-a_bold".data) = true ∧
    echoLoopRun 1 none [("sub-01_acq-a_bold.nii".data)] ("sub-01_acq-a_bold".data) =
      some (LoopResult.err ("UnboundLocalError".data)) ∧
    (∀ fuel : Nat, echoLoopRun fuel (some [])
        [("sub-01_acq-a_bold.nii".data)] ("sub-01_acq-a_bold".data) = none) := by
  refine ⟨by decide, by decide, ?_⟩
  intro fuel
  induction fuel with
  | zero => rfl
  | succ fuel ih =>
    rw [echoLoopRun_step_stuck _ _ (by decide) fuel]
    exact ih

/-- Claim C6: with converter arguments containing `-x y` and a cropped
sibling `name_Crop_1.nii.gz` coexisting with the uncropped `name.nii.gz`,
the crop step (run before token processing) renames the cropped file onto
`name.nii.gz`, overwriting the uncropped one: exactly one output file
`name.nii.gz` remains and it holds the cropped data (content tag 1). -/
theorem c6_crop_replacement :
    cropEnabled ("-b y -z y -x y".data) = true ∧
    cropPass ("name".data)
        [(("name_Crop_1.nii.gz".data), 1), (("name.nii.gz".data), 0)] =
      some [(("name.nii.gz".data), 1)] ∧
    processAcq ⟨false, false, ("T1w".data)⟩ true ("name".data)
        [(("name_Crop_1.nii.gz".data), 1), (("name.nii.gz".data), 0)] =
      some [(("name.nii.gz".data), 1)] := by
  decide

/-- Claim C7: whenever the rename step computes a target file name that
already exists in the output folder, the warning condition of line 352 fires,
and the rename itself still succeeds (`Path.replace` overwrites): the target
name is present afterwards with the moved content, and the source name is
gone (unless it equals the target). -/
theorem c7_overwrite_then_rename (folder : Folder) (old new : Str)
    (h1 : old ∈ names folder) (h2 : new ∈ names folder) :
    overwriteWarning folder new = true ∧
    ∃ folder', renameFile folder old new = some folder' ∧
      new ∈ names folder' ∧ (old = new ∨ old ∉ names folder') := by
  obtain ⟨e0, he0, hfst⟩ := List.mem_map.mp h1
  have hs : (folder.find? fun e => e.1 == old).isSome :=
    List.find?_isSome.mpr ⟨e0, he0, by simp [hfst]⟩
  obtain ⟨e, hfe⟩ := Option.isSome_iff_exists.mp hs
  constructor
  · simp only [overwriteWarning]
    exact List.elem_iff.mpr h2
  · refine ⟨folder.filter (fun e' => !(e'.1 == old) && !(e'.1 == new)) ++ [(new, e.2)],
      ?_, ?_, ?_⟩
    · simp [renameFile, hfe]
    · unfold names
      rw [List.map_append]
      simp
    · by_cases hon : old = new
      · exact Or.inl hon
      · right
        intro hmem2
        unfold names at hmem2
        rw [List.map_append] at hmem2
        rcases List.mem_append.mp hmem2 with h | h
        · obtain ⟨e', he', hfst'⟩ := List.mem_map.mp h
          have h9 := (List.mem_filter.mp he').2
          rw [hfst'] at h9
          simp at h9
        · simp at h
          exact hon h

/-- Witness for claim C7. -/
theorem c7_overwrite_then_rename_witness :
    overwriteWarning [(("a.nii".data), 0), (("b.nii".data), 1)] ("b.nii".data) = true ∧
    ∃ folder', renameFile [(("a.nii".data), 0), (("b.nii".data), 1)]
        ("a.nii".data) ("b.nii".data) = some folder' ∧
      ("b.nii".data) ∈ names folder' ∧
      (("a.nii".data) = ("b.nii".data) ∨ ("a.nii".data) ∉ names folder') :=
  c7_overwrite_then_rename [(("a.nii".data), 0), (("b.nii".data), 1)]
    ("a.nii".data) ("b.nii".data) (by decide) (by decide)

/-- Claim C8 counterexample: the postfix-renaming pass does NOT always
preserve the image file count: for suffix `phasediff` with two echo siblings
`_e1` and `_e2` (static run index), both siblings resolve to the same target
name `sub-01_phasediff.nii`, so the second rename overwrites the first and
the folder shrinks from two files to one. -/
theorem c8_count_counterexample :
    resolveName ⟨false, false, ("phasediff".data)⟩ 2 ("sub-01_phasediff".data)
        ("sub-01_phasediff_e1.nii".data) =
      resolveName ⟨false, false, ("phasediff".data)⟩ 2 ("sub-01_phasediff".data)
        ("sub-01_phasediff_e2.nii".data) ∧
    processAcq ⟨false, false, ("phasediff".data)⟩ false ("sub-01_phasediff".data)
        [(("sub-01_phasediff_e1.nii".data), 0), (("sub-01_phasediff_e2.nii".data), 1)] =
      some [(("sub-01_phasediff.nii".data), 1)] := by
  decide

/-- Claim C8 amended: the postfix-renaming pass preserves the file count
provided the resolved target names are defined, pairwise distinct, and each
either equals its own source name or is fresh in the folder; two siblings
resolving to one name (as with `phasediff` echo pairs) instead overwrite. -/
theorem c8_count_preserved (cfg : RunBids) (nfiles : Nat) (bidsname : Str)
    (files : List Str) (folder : Folder)
    (h1 : (names folder).Nodup) (h2 : files.Nodup)
    (h3 : ∀ f, f ∈ files → f ∈ names folder)
    (h4 : ∀ f, f ∈ files → (resolveName cfg nfiles bidsname f).isSome = true)
    (h5 : ∀ f, f ∈ files → ((resolveName cfg nfiles bidsname f).getD f = f ∨
        (resolveName cfg nfiles bidsname f).getD f ∉ names folder))
    (h6 : ∀ f, f ∈ files → ∀ g, g ∈ files → f ≠ g →
        (resolveName cfg nfiles bidsname f).getD f ≠
          (resolveName cfg nfiles bidsname g).getD g) :
    ∃ folder', renamePass (resolveName cfg nfiles bidsname) files folder = some folder' ∧
      folder'.length = folder.length :=
  renamePass_length (resolveName cfg nfiles bidsname) files folder h1 h2 h3 h4 h5 h6

/-- Witness for claim C8. -/
theorem c8_count_preserved_witness :
    ∃ folder', renamePass
        (resolveName ⟨false, false, ("magnitude1".data)⟩ 3 ("sub-01_magnitude1".data))
        [("sub-01_magnitude1_e1.nii".data), ("sub-01_magnitude1_e2.nii".data),
         ("sub-01_magnitude1_e2_ph.nii".data)]
        [(("sub-01_magnitude1_e1.nii".data), 0), (("sub-01_magnitude1_e2.nii".data), 1),
         (("sub-01_magnitude1_e2_ph.nii".data), 2)] = some folder' ∧
      folder'.length = List.length
        [(("sub-01_magnitude1_e1.nii".data), 0), (("sub-01_magnitude1_e2.nii".data), 1),
         (("sub-01_magnitude1_e2_ph.nii".data), 2)] :=
  c8_count_preserved ⟨false, false, ("magnitude1".data)⟩ 3 ("sub-01_magnitude1".data)
    [("sub-01_magnitude1_e1.nii".data), ("sub-01_magnitude1_e2.nii".data),
     ("sub-01_magnitude1_e2_ph.nii".data)]
    [(("sub-01_magnitude1_e1.nii".data), 0), (("sub-01_magnitude1_e2.nii".data), 1),
     (("sub-01_magnitude1_e2_ph.nii".data), 2)]
    (by decide) (by decide) (by decide) (by decide) (by decide) (by decide)

/-- Claim C9: re-running the reconciliation on a file that already bears its
correct canonical name and carries no postfix tokens is a no-op: the file
matches none of the dcm2niix marker globs, so it is not selected for
renaming, and the acquisition pass returns the folder unchanged. -/
theorem c9_idempotent_no_tokens (cfg : RunBids) (b : Str) (hb : '*' ∉ b) :
    selectedForRenaming b (b ++ (".nii.gz".data)) = false ∧
    processAcq cfg false b [((b ++ (".nii.gz".data)), 0)] =
      some [((b ++ (".nii.gz".data)), 0)] := by
  have hsel := selected_canonical_false b hb
  refine ⟨hsel, ?_⟩
  have hfiles : dcm2niixFiles b [((b ++ (".nii.gz".data)), 0)] = [] := by
    simp [dcm2niixFiles, names, List.filter, hsel, sortNames]
  simp [processAcq, hfiles, renamePass]

/-- Witness for claim C9. -/
theorem c9_idempotent_no_tokens_witness :
    selectedForRenaming ("sub-01_T1w".data)
        (("sub-01_T1w".data) ++ (".nii.gz".data)) = false ∧
    processAcq ⟨false, false, ("T1w".data)⟩ false ("sub-01_T1w".data)
        [((("sub-01_T1w".data) ++ (".nii.gz".data)), 0)] =
      some [((("sub-01_T1w".data) ++ (".nii.gz".data)), 0)] :=
  c9_idempotent_no_tokens ⟨false, false, ("T1w".data)⟩ ("sub-01_T1w".data) (by decide)

/-- Claim C10: whenever the acquisition-time string parses, the value written
to the scans.tsv `acq_time` column starts with the fixed date `1925-01-01T`
followed by only the parsed time of day; the output is independent of the
parsed date fields, so the true acquisition date never appears (a failed
parse writes the sentinel `n/a`). -/
theorem c10_acq_time_date_fixed (t : ParsedDatetime) :
    (mkAcqTime (some t)).take 11 = ("1925-01-01T".data) ∧
    (∀ y m d, mkAcqTime (some ⟨y, m, d, t.hour, t.minute, t.second⟩) =
      mkAcqTime (some t)) ∧
    mkAcqTime none = ("n/a".data) := by
  refine ⟨?_, fun y m d => rfl, rfl⟩
  show (("1925-01-01T".data) ++ strftimeHMS t).take 11 = ("1925-01-01T".data)
  have h11 : ("1925-01-01T".data).length = 11 := by decide
  rw [← h11, List.take_left]
